import Mathlib

/-!
Shallow embedding of the maternal-assistant signal pipeline
(backend/utils/feature_extractor.py and backend/utils/signal_processor.py).

Conventions used throughout the embedding:

* Floating-point samples are modelled as real numbers; a possibly-NaN raw
  sample (before cleansing) is an Option value with none playing NaN.
* A numpy/python operation that can raise is modelled as an Option-valued
  function, with none standing for the raised exception.
* Division follows the Lean convention x / 0 = 0.  Where the python code can
  actually divide by zero through numpy (producing NaN, not an exception) and
  a claim depends on the outcome, the NaN propagation is modelled explicitly;
  each such place carries a comment.
* The discrete Fourier transform magnitude spectrum (scipy.fft.fft followed
  by np.abs) is an external library routine, not code of this repository; the
  extractors take it as an explicit function parameter fftMag.  No claim
  depends on spectral magnitudes beyond the spectrum having the same length
  as its input, which the real FFT satisfies.
-/

/-- Python slice s[a:b] for 0 ≤ a ≤ b: the elements with index in [a, b). -/
def pySlice {α : Type} (s : List α) (a b : ℕ) : List α := (s.take b).drop a

/-- Python int() applied to a rational: truncation toward zero. -/
def pyInt (q : ℚ) : ℤ := if q < 0 then ⌈q⌉ else ⌊q⌋

/-- np.max over a one-dimensional array; none models the ValueError numpy
raises on an empty array. -/
def listMax (s : List ℝ) : Option ℝ :=
  match s with
  | [] => none
  | x :: xs => some (xs.foldl max x)

/-- np.min over a one-dimensional array; none models the ValueError numpy
raises on an empty array. -/
def listMin (s : List ℝ) : Option ℝ :=
  match s with
  | [] => none
  | x :: xs => some (xs.foldl min x)

/-- np.mean: sum divided by length (np.mean of an empty array is NaN with a
warning, not an exception; here 0 by the x / 0 = 0 convention — no claim
reads the mean of an empty signal). -/
noncomputable def npMean (s : List ℝ) : ℝ := s.sum / s.length

/-- np.var: mean of squared deviations from the mean (population variance,
numpy default ddof = 0). -/
noncomputable def npVar (s : List ℝ) : ℝ := npMean (s.map fun x => (x - npMean s) ^ 2)

/-- np.std: square root of the population variance. -/
noncomputable def npStd (s : List ℝ) : ℝ := Real.sqrt (npVar s)

/-- Root mean square: np.sqrt(np.mean(signal_data ** 2)). -/
noncomputable def npRms (s : List ℝ) : ℝ := Real.sqrt (npMean (s.map fun x => x ^ 2))

/-- np.median: sort, then the middle element (odd length) or the average of
the two middle elements (even length).  For the empty array numpy produces
NaN with a warning; here the getD default 0 (no claim reads it). -/
noncomputable def npMedian (s : List ℝ) : ℝ :=
  let sorted := s.mergeSort (· ≤ ·)
  if s.length % 2 = 1 then sorted.getD (s.length / 2) 0
  else (sorted.getD (s.length / 2 - 1) 0 + sorted.getD (s.length / 2) 0) / 2

/-- scipy.stats.skew with the default bias=True: m3 / m2 ** 1.5 over central
moments.  Since m2 ≥ 0, m2 ** 1.5 is written (√m2)³.  A constant signal gives
m2 = 0 and scipy returns NaN; here 0 / 0 = 0 — no claim reads the skewness of
a constant signal. -/
noncomputable def npSkew (s : List ℝ) : ℝ :=
  npMean (s.map fun x => (x - npMean s) ^ 3) / Real.sqrt (npVar s) ^ 3

/-- scipy.stats.kurtosis with defaults (Fisher=True, bias=True):
m4 / m2 ** 2 - 3.  The NaN of a constant signal becomes 0 - 3 here — no claim
reads the kurtosis of a constant signal. -/
noncomputable def npKurt (s : List ℝ) : ℝ :=
  npMean (s.map fun x => (x - npMean s) ^ 4) / npVar s ^ 2 - 3

/-- np.sign on a real sample. -/
noncomputable def npSign (x : ℝ) : ℝ := if 0 < x then 1 else if x < 0 then -1 else 0

/-- np.diff: first differences d[i] = s[i+1] - s[i]. -/
def npDiff (s : List ℝ) : List ℝ := List.zipWith (fun a b => b - a) s s.tail

/-- Zero crossing rate: np.sum(np.diff(np.sign(signal_data)) != 0) divided by
the signal length. -/
noncomputable def npZcr (s : List ℝ) : ℝ :=
  ((npDiff (s.map npSign)).countP fun d => decide (d ≠ 0)) / s.length

/-- Signal energy: np.sum(signal_data ** 2). -/
noncomputable def npEnergy (s : List ℝ) : ℝ := (s.map fun x => x ^ 2).sum

/-- np.fft.fftfreq n (sample spacing d = 1): the list
[0, 1, ..., (n-1)/2, -(n/2), ..., -1] / n of exact rational normalized
frequencies, every one of which lies in [-1/2, 1/2). -/
def fftfreq (n : ℕ) : List ℚ :=
  (List.range n).map fun k => if k ≤ (n - 1) / 2 then (k : ℚ) / n else ((k : ℚ) - n) / n

/-- Sum of the spectrum magnitudes selected by a frequency-band mask:
fft_vals[(fft_freq >= lo) & (fft_freq < hi)].sum(). -/
noncomputable def bandSumVal (fv : List ℝ) (fr : List ℚ) (lo hi : ℚ) : ℝ :=
  (((fr.zip fv).filter fun p => decide (lo ≤ p.1 ∧ p.1 < hi)).map Prod.snd).sum

/-- Boolean-mask selection in numpy requires mask and array of equal length
(IndexError otherwise), hence the Option. -/
noncomputable def bandSum (fv : List ℝ) (fr : List ℚ) (lo hi : ℚ) : Option ℝ :=
  if fv.length = fr.length then some (bandSumVal fv fr lo hi) else none

/-- Scanning worker for np.argmax: list still to scan, best value so far,
its index, index of the next element. -/
noncomputable def argmaxGo : List ℝ → ℝ → ℕ → ℕ → ℕ
  | [], _, bi, _ => bi
  | y :: ys, bv, bi, i => if bv < y then argmaxGo ys y i (i + 1) else argmaxGo ys bv bi (i + 1)

/-- np.argmax: index of the first maximal element; none models the ValueError
numpy raises on an empty array. -/
noncomputable def npArgmax (s : List ℝ) : Option ℕ :=
  match s with
  | [] => none
  | x :: xs => some (argmaxGo xs x 0 1)

/-- Value of a list at an integer index, 0 outside bounds; used to express
the correlation sum. -/
noncomputable def getZ (s : List ℝ) (i : ℤ) : ℝ :=
  if 0 ≤ i ∧ i < s.length then s.getD i.toNat 0 else 0

/-- np.correlate(x, x, mode=full): a list of length 2n - 1 whose entry k is
the sum over j of x[j] * x[j + (n - 1) - k]. -/
noncomputable def correlateFull (s : List ℝ) : List ℝ :=
  (List.range (2 * s.length - 1)).map fun (k : ℕ) =>
    ((List.range s.length).map fun (j : ℕ) =>
      s.getD j 0 * getZ s ((j : ℤ) + s.length - 1 - (k : ℤ))).sum

/-- The autocorrelation half kept by the source:
autocorr = np.correlate(x, x, mode=full); autocorr = autocorr[len(autocorr)//2:]. -/
noncomputable def ehgAutocorr (s : List ℝ) : List ℝ :=
  (correlateFull s).drop ((2 * s.length - 1) / 2)

/-- The local z-score copy taken inside calculate_sample_entropy:
signal_data = (signal_data - np.mean(signal_data)) / np.std(signal_data). -/
noncomputable def zscore (s : List ℝ) : List ℝ :=
  s.map fun x => (x - npMean s) / npStd s

/-- _maxdist: Chebyshev distance of two templates, the maximum over zipped
pairs of the absolute difference (python max over a list of values that are
all ≥ 0, so the 0 base of the fold is absorbed). -/
noncomputable def maxdist (a b : List ℝ) : ℝ :=
  ((a.zip b).map fun p => |p.1 - p.2|).foldl max 0

/-- The template list of _phi: the window s[i : i+m] for each start index i
in range(N - m + 1) (empty when m exceeds N + 1, as the python range is). -/
noncomputable def sampEnTemplates (s : List ℝ) (m : ℕ) : List (List ℝ) :=
  (List.range (((s.length : ℤ) - m + 1).toNat)).map fun i => pySlice s i (i + m)

/-- _phi(m): for each template index i, the number of other indices j ≠ i
within Chebyshev distance ≤ r of template i, summed over all i. -/
noncomputable def sampEnPhi (s : List ℝ) (r : ℝ) (m : ℕ) : ℕ :=
  let x := sampEnTemplates s m
  ((List.range x.length).map fun i =>
    ((List.range x.length).filter fun j =>
      decide (j ≠ i) && decide (maxdist (x.getD i []) (x.getD j []) ≤ r)).length).sum

/-- calculate_sample_entropy.  The source wraps its body in try/except
returning 0.0; the two extra guards below are exactly the ways the body
degenerates, made explicit:

* a constant signal (npStd = 0) makes the z-score divide by zero; numpy turns
  every sample into NaN, every NaN comparison is False, so both phi counts
  are 0 and the guarded else yields 0.0;
* m = 0 makes every template empty, so _maxdist computes max([]) which raises
  ValueError, caught by the bare except: 0.0.

Otherwise the result is -np.log(phi(m+1) / phi(m)) when both counts are
strictly positive and 0.0 when either is 0. -/
noncomputable def calculate_sample_entropy (s : List ℝ) (m : ℕ) (r : ℝ) : ℝ :=
  if s.length < 10 then 0
  else if npStd s = 0 then 0
  else if m = 0 then 0
  else
    let ns := zscore s
    let r2 := r * npStd ns
    if 0 < sampEnPhi ns r2 m ∧ 0 < sampEnPhi ns r2 (m + 1) then
      -Real.log ((sampEnPhi ns r2 (m + 1) : ℝ) / (sampEnPhi ns r2 m : ℝ))
    else 0

/-- extract_ehg_features.  The fftMag parameter stands for the external
np.abs(scipy.fft.fft(...)) magnitude spectrum.  Option-valued steps mark the
numpy calls that can raise: np.max/np.min on an empty array, boolean-mask
selection with mismatched lengths, np.argmax of the empty slice
fft_vals[1 : len(fft_vals)//2], indexing fft_freq and the autocorrelation. -/
noncomputable def extract_ehg_features (fftMag : List ℝ → List ℝ) (s : List ℝ) :
    Option (List ℝ) :=
  (listMax s).bind fun mx =>
  (listMin s).bind fun mn =>
  (bandSum (fftMag s) (fftfreq s.length) (2/10) (5/10)).bind fun lowP =>
  (bandSum (fftMag s) (fftfreq s.length) (5/10) 1).bind fun midP =>
  (bandSum (fftMag s) (fftfreq s.length) 1 4).bind fun highP =>
  (npArgmax (pySlice (fftMag s) 1 ((fftMag s).length / 2))).bind fun am =>
  ((fftfreq s.length)[am + 1]?).bind fun df =>
  ((ehgAutocorr s)[0]?).bind fun a0 =>
  (if a0 = 0 then some 0 else ((ehgAutocorr s)[1]?).map fun a1 => a1 / a0).bind fun lag1 =>
  some [npMean s, npStd s, npVar s, npRms s, mx - mn, npMedian s,
        npSkew s, npKurt s, lowP, midP, highP, (df : ℝ),
        npZcr s, npEnergy s, lag1, calculate_sample_entropy s 2 0.2]

/-- calculate_baseline_fhr: the median of the signal. -/
noncomputable def calculate_baseline_fhr (s : List ℝ) : ℝ := npMedian s

/-- detect_accelerations: single pass; a new acceleration is counted when a
sample exceeds baseline + threshold while not already in one, and the
in-acceleration state resets on any sample at or below that level. -/
def detect_accelerations {α : Type} [LinearOrder α] [Add α]
    (s : List α) (baseline threshold : α) : ℕ :=
  (s.foldl (fun (st : ℕ × Bool) val =>
    if baseline + threshold < val then (if st.2 then st else (st.1 + 1, true))
    else (st.1, false)) (0, false)).1

/-- detect_decelerations: mirror image below baseline - threshold. -/
def detect_decelerations {α : Type} [LinearOrder α] [Sub α]
    (s : List α) (baseline threshold : α) : ℕ :=
  (s.foldl (fun (st : ℕ × Bool) val =>
    if val < baseline - threshold then (if st.2 then st else (st.1 + 1, true))
    else (st.1, false)) (0, false)).1

/-- Declarative count of contiguous excursions above baseline + threshold:
the number of sample positions that are above the level while the previous
position (or the start of the signal) is not. -/
def excursionStarts {α : Type} [LinearOrder α] [Add α]
    (s : List α) (baseline threshold : α) : ℕ :=
  let bs := s.map fun v => decide (baseline + threshold < v)
  (List.range s.length).countP fun i => bs.getD i false && !((false :: bs).getD i false)

/-- Structural helper for the excursion count: number of positions holding
true whose predecessor (seeded with prev) holds false. -/
def runStartCount (prev : Bool) : List Bool → ℕ
  | [] => 0
  | b :: rest => (if b && !prev then 1 else 0) + runStartCount b rest

/-- Short-term variability of the CTG extractor: mean absolute first
difference when the signal has more than one sample, else 0. -/
noncomputable def ctgShortTermVar (s : List ℝ) : ℝ :=
  if 1 < s.length then npMean ((npDiff s).map fun d => |d|) else 0

/-- Long-term variability of the CTG extractor: window size
min(60, len // 10); if it exceeds 1, the mean of the rolling standard
deviations of the windows starting at 0 .. len - window_size - 1 (the python
loop is range(len(signal_data) - window_size)), 0 if that list is empty;
else 0. -/
noncomputable def ctgLongTermVar (s : List ℝ) : ℝ :=
  let ws := min 60 (s.length / 10)
  if 1 < ws then
    let rolling := (List.range (s.length - ws)).map fun i => npStd (pySlice s i (i + ws))
    if rolling = [] then 0 else npMean rolling
  else 0

/-- The amended reading of claim C4: mean of the rolling standard deviations
over the windows starting at 0, 1, ..., len - ws - 1 — every full window
except the one starting at len - ws; 0 when ws ≤ 1 or no such start exists. -/
noncomputable def ltvAmended (s : List ℝ) : ℝ :=
  let ws := min 60 (s.length / 10)
  let starts := List.range (s.length - ws)
  if ws ≤ 1 ∨ starts = [] then 0
  else npMean (starts.map fun i => npStd (pySlice s i (i + ws)))

/-- The long-term variability as claim C4 states it: mean of the standard
deviations of ALL full windows of size ws slid over the signal, i.e. the
start indices 0 .. len - ws inclusive. -/
noncomputable def ltvAllFullWindows (s : List ℝ) : ℝ :=
  let ws := min 60 (s.length / 10)
  if 1 < ws then
    let rolling := (List.range (s.length - ws + 1)).map fun i => npStd (pySlice s i (i + ws))
    if rolling = [] then 0 else npMean rolling
  else 0

/-- extract_ctg_features.  fftMag is the external magnitude spectrum, as in
extract_ehg_features; the Option-valued steps are np.max/np.min on the signal
and np.max on the spectrum, which raise on empty arrays. -/
noncomputable def extract_ctg_features (fftMag : List ℝ → List ℝ) (s : List ℝ) :
    Option (List ℝ) :=
  (listMax s).bind fun mx =>
  (listMin s).bind fun mn =>
  (listMax (fftMag s)).bind fun mfft =>
  some [npMean s, npStd s, npVar s, calculate_baseline_fhr s,
        ctgShortTermVar s, ctgLongTermVar s,
        (detect_accelerations s (calculate_baseline_fhr s) 15 : ℝ),
        (detect_decelerations s (calculate_baseline_fhr s) 15 : ℝ),
        mx - mn, mfft, calculate_sample_entropy s 2 0.2,
        ((s.countP fun v => decide (calculate_baseline_fhr s < v)) : ℝ) / s.length,
        npSkew s, npKurt s]

/-- The cleanse step of preprocess_signal:
signal_data = signal_data[~np.isnan(signal_data)].  Raw samples are Option
values with none playing NaN; cleansing keeps the non-NaN samples in order. -/
def cleanse (s : List (Option ℝ)) : List ℝ := s.filterMap id

/-- The normalize step of preprocess_signal: z-score when the standard
deviation is strictly positive, otherwise the samples are left unchanged. -/
noncomputable def normalizeStep (s : List ℝ) : List ℝ :=
  if 0 < npStd s then s.map fun x => (x - npMean s) / npStd s else s

/-- np.linspace a b num: num evenly spaced points from a to b inclusive
([a] when num = 1, empty when num = 0). -/
noncomputable def linspace (a b : ℝ) (num : ℕ) : List ℝ :=
  (List.range num).map fun i => if num = 1 then a else a + i * (b - a) / (num - 1)

/-- Interval walk for np.interp over the (grid point, value) pairs to the
right of the current pair. -/
noncomputable def npInterpGo (q : ℝ) : (ℝ × ℝ) → List (ℝ × ℝ) → ℝ
  | (_, y1), [] => y1
  | (x1, y1), (x2, y2) :: rest =>
    if q ≤ x1 then y1
    else if q ≤ x2 then y1 + (y2 - y1) * (q - x1) / (x2 - x1)
    else npInterpGo q (x2, y2) rest

/-- np.interp(q, xp, fp) on an increasing grid xp: clamped at the ends,
piecewise linear inside.  numpy raises on an empty grid; that branch is
unreachable from the claims and gives 0 here. -/
noncomputable def npInterp (q : ℝ) (xp fp : List ℝ) : ℝ :=
  match xp.zip fp with
  | [] => 0
  | p :: rest => npInterpGo q p rest

/-- preprocess_signal: cleanse, normalize, then resample by linear
interpolation over uniform index grids when a target length is given and
differs from the current length. -/
noncomputable def preprocess_signal (s : List (Option ℝ)) (target_length : Option ℕ) :
    List ℝ :=
  let ns := normalizeStep (cleanse s)
  match target_length with
  | none => ns
  | some t =>
    if ns.length ≠ t then
      (linspace 0 ((ns.length : ℝ) - 1) t).map fun q =>
        npInterp q (linspace 0 ((ns.length : ℝ) - 1) ns.length) ns
    else ns

/-- segment_signal.  step = int(segment_length * (1 - overlap)) — note the
absence of any clamp to 1.  A zero step makes python range() raise
ValueError (none).  A negative step (only possible for overlap > 1, outside
the spec domain [0,1)) makes the python range empty when at least one full
window fits, giving no segments.  Otherwise the start indices are
0, step, 2*step, ... while a full window of segment_length samples fits,
so there are (stop + step - 1) / step of them, stop = len - segment_length + 1. -/
def segment_signal {α : Type} (s : List α) (segment_length : ℕ) (overlap : ℚ) :
    Option (List (List α)) :=
  let stepZ := pyInt ((segment_length : ℚ) * (1 - overlap))
  if stepZ = 0 then none
  else if stepZ < 0 then some []
  else
    let step := stepZ.toNat
    let stop := ((s.length : ℤ) - segment_length + 1).toNat
    some ((List.range ((stop + step - 1) / step)).map fun k =>
      pySlice s (k * step) (k * step + segment_length))

/-- The 500-sample constant signal of the CTG end-to-end scenario. -/
noncomputable def ctgConstSig : List ℝ := List.replicate 500 140

/-- A 20-sample signal: nineteen zeros followed by a single one.  Its C4
window size is min(60, 20 // 10) = 2; the window starting at index 18 is the
only one with nonzero standard deviation, and it is exactly the full window
the source loop leaves out. -/
noncomputable def c4sig : List ℝ := List.replicate 19 0 ++ [1]

/-- A synthetic CTG trace over ℚ: baseline 140, two separate 3-sample
excursions to 160 > 140 + 15, return to baseline in between and at the end. -/
def c6sig : List ℚ :=
  [140, 140, 160, 160, 160, 140, 140, 160, 160, 160, 140]

/-- A length-preserving stand-in for the external magnitude spectrum, used to
instantiate witnesses: the pointwise absolute value (for a length-1 signal
this IS the exact DFT magnitude). -/
noncomputable def fmAbs : List ℝ → List ℝ := fun l => l.map fun x => |x|

/-- A second length-preserving spectrum stand-in for witnesses. -/
noncomputable def fmZero : List ℝ → List ℝ := fun l => List.replicate l.length 0

lemma listMax_of_ne_nil {s : List ℝ} (h : s ≠ []) : ∃ m, listMax s = some m := by
  cases s with
  | nil => exact absurd rfl h
  | cons x xs => exact ⟨xs.foldl max x, rfl⟩

lemma listMin_of_ne_nil {s : List ℝ} (h : s ≠ []) : ∃ m, listMin s = some m := by
  cases s with
  | nil => exact absurd rfl h
  | cons x xs => exact ⟨xs.foldl min x, rfl⟩

lemma fftfreq_length (n : ℕ) : (fftfreq n).length = n := by
  simp [fftfreq]

lemma pySlice_length {α : Type} (s : List α) (a b : ℕ) :
    (pySlice s a b).length = min b s.length - a := by
  simp [pySlice]

lemma fftfreq_mem_lt_half {n : ℕ} {q : ℚ} (h : q ∈ fftfreq n) : q < 1 / 2 := by
  simp only [fftfreq, List.mem_map, List.mem_range] at h
  obtain ⟨k, hk, rfl⟩ := h
  have hn : 0 < n := Nat.lt_of_le_of_lt (Nat.zero_le k) hk
  by_cases hle : k ≤ (n - 1) / 2
  · rw [if_pos hle]
    have h2 : 2 * k < n := by
      have := (Nat.le_div_iff_mul_le (by norm_num)).1 hle
      omega
    have h2q : (k : ℚ) * 2 < 1 * n := by
      have : ((2 * k : ℕ) : ℚ) < (n : ℚ) := by exact_mod_cast h2
      push_cast at this
      linarith
    rw [div_lt_div_iff₀ (by exact_mod_cast hn) (by norm_num)]
    exact h2q
  · rw [if_neg hle]
    have hneg : (k : ℚ) - n < 0 := by
      have : (k : ℚ) < n := by exact_mod_cast hk
      linarith
    calc ((k : ℚ) - n) / n < 0 := div_neg_of_neg_of_pos hneg (by exact_mod_cast hn)
    _ < 1 / 2 := by norm_num

lemma bandSumVal_eq_zero_of_half_le {fv : List ℝ} {n : ℕ} {lo hi : ℚ}
    (hlo : 1 / 2 ≤ lo) : bandSumVal fv (fftfreq n) lo hi = 0 := by
  unfold bandSumVal
  have hf : ((fftfreq n).zip fv).filter
      (fun p => decide (lo ≤ p.1 ∧ p.1 < hi)) = [] := by
    rw [List.filter_eq_nil_iff]
    intro p hp
    have hp1 : p.1 ∈ fftfreq n := (List.of_mem_zip hp).1
    have : p.1 < 1 / 2 := fftfreq_mem_lt_half hp1
    simp only [decide_eq_true_eq, not_and]
    intro hle
    exact absurd (lt_of_le_of_lt (le_trans hlo hle) this) (lt_irrefl _)
  rw [hf]
  simp

lemma bandSum_eq_some {fv : List ℝ} {fr : List ℚ} {lo hi : ℚ}
    (h : fv.length = fr.length) : bandSum fv fr lo hi = some (bandSumVal fv fr lo hi) := by
  simp [bandSum, h]

lemma bandSum_eq_none {fv : List ℝ} {fr : List ℚ} {lo hi : ℚ}
    (h : fv.length ≠ fr.length) : bandSum fv fr lo hi = none := by
  simp [bandSum, h]

lemma argmaxGo_lt {c : ℕ} :
    ∀ (ys : List ℝ) (bv : ℝ) (bi i : ℕ), bi < c → i + ys.length ≤ c →
      argmaxGo ys bv bi i < c := by
  intro ys
  induction ys with
  | nil => intro bv bi i hbi _; simpa [argmaxGo] using hbi
  | cons y ys ih =>
    intro bv bi i hbi hlen
    simp only [argmaxGo]
    by_cases hy : bv < y
    · rw [if_pos hy]
      refine ih y i (i + 1) ?_ ?_
      · simp only [List.length_cons] at hlen; omega
      · simp only [List.length_cons] at hlen; omega
    · rw [if_neg hy]
      refine ih bv bi (i + 1) hbi ?_
      simp only [List.length_cons] at hlen; omega

lemma npArgmax_of_ne_nil {s : List ℝ} (h : s ≠ []) :
    ∃ i, npArgmax s = some i ∧ i < s.length := by
  cases s with
  | nil => exact absurd rfl h
  | cons x xs =>
    refine ⟨argmaxGo xs x 0 1, rfl, ?_⟩
    exact argmaxGo_lt xs x 0 1 (by simp) (by simp only [List.length_cons]; omega)

lemma correlateFull_length (s : List ℝ) : (correlateFull s).length = 2 * s.length - 1 := by
  unfold correlateFull
  rw [List.length_map, List.length_range]

lemma ehgAutocorr_length {s : List ℝ} (h : s ≠ []) : (ehgAutocorr s).length = s.length := by
  have hn : 1 ≤ s.length := List.length_pos.2 h
  simp only [ehgAutocorr, List.length_drop, correlateFull_length]
  omega

lemma npMean_replicate {n : ℕ} {c : ℝ} (h : n ≠ 0) : npMean (List.replicate n c) = c := by
  simp only [npMean, List.sum_replicate, List.length_replicate, nsmul_eq_mul]
  field_simp

lemma npVar_replicate (n : ℕ) (c : ℝ) : npVar (List.replicate n c) = 0 := by
  rcases Nat.eq_zero_or_pos n with h0 | hpos
  · subst h0; simp [npVar, npMean]
  · have hm := npMean_replicate (n := n) (c := c) (by omega : n ≠ 0)
    simp only [npVar, hm, List.map_replicate, sub_self]
    norm_num [npMean, List.sum_replicate]

lemma npStd_replicate (n : ℕ) (c : ℝ) : npStd (List.replicate n c) = 0 := by
  simp [npStd, npVar_replicate]

lemma normalizeStep_length (s : List ℝ) : (normalizeStep s).length = s.length := by
  unfold normalizeStep
  by_cases h : 0 < npStd s
  · rw [if_pos h]; simp
  · rw [if_neg h]

lemma extract_ctg_eq_some {fm : List ℝ → List ℝ} {s : List ℝ}
    (hs : s ≠ []) (hfm : fm s ≠ []) :
    ∃ mx mn mfft, extract_ctg_features fm s = some
      [npMean s, npStd s, npVar s, calculate_baseline_fhr s,
       ctgShortTermVar s, ctgLongTermVar s,
       (detect_accelerations s (calculate_baseline_fhr s) 15 : ℝ),
       (detect_decelerations s (calculate_baseline_fhr s) 15 : ℝ),
       mx - mn, mfft, calculate_sample_entropy s 2 0.2,
       ((s.countP fun v => decide (calculate_baseline_fhr s < v)) : ℝ) / s.length,
       npSkew s, npKurt s] := by
  obtain ⟨mx, hmx⟩ := listMax_of_ne_nil hs
  obtain ⟨mn, hmn⟩ := listMin_of_ne_nil hs
  obtain ⟨mfft, hmfft⟩ := listMax_of_ne_nil hfm
  refine ⟨mx, mn, mfft, ?_⟩
  unfold extract_ctg_features
  rw [hmx, hmn, hmfft]
  simp only [Option.some_bind]

lemma extract_ehg_eq_some {fm : List ℝ → List ℝ} {s : List ℝ}
    (hlen : (fm s).length = s.length) (h4 : 4 ≤ s.length) :
    ∃ mx mn am lag1, am + 1 < s.length ∧
      extract_ehg_features fm s = some
      [npMean s, npStd s, npVar s, npRms s, mx - mn, npMedian s,
       npSkew s, npKurt s,
       bandSumVal (fm s) (fftfreq s.length) (2/10) (5/10),
       bandSumVal (fm s) (fftfreq s.length) (5/10) 1,
       bandSumVal (fm s) (fftfreq s.length) 1 4,
       (((fftfreq s.length).getD (am + 1) 0 : ℚ) : ℝ), npZcr s, npEnergy s, lag1,
       calculate_sample_entropy s 2 0.2] := by
  have hs : s ≠ [] := by
    intro h
    rw [h] at h4
    simp at h4
  obtain ⟨mx, hmx⟩ := listMax_of_ne_nil hs
  obtain ⟨mn, hmn⟩ := listMin_of_ne_nil hs
  have hfr : (fm s).length = (fftfreq s.length).length := by
    rw [fftfreq_length]
    exact hlen
  have hslice : pySlice (fm s) 1 ((fm s).length / 2) ≠ [] := by
    rw [← List.length_pos, pySlice_length, hlen]
    omega
  obtain ⟨am, ham, hamlt⟩ := npArgmax_of_ne_nil hslice
  rw [pySlice_length, hlen] at hamlt
  have hamlt2 : am + 1 < s.length := by omega
  have hbdf : am + 1 < (fftfreq s.length).length := by
    rw [fftfreq_length]
    exact hamlt2
  have hdf : (fftfreq s.length)[am + 1]? = some ((fftfreq s.length).getD (am + 1) 0) := by
    rw [List.getElem?_eq_getElem hbdf, List.getD_eq_getElem _ 0 hbdf]
  have hac : (ehgAutocorr s).length = s.length := ehgAutocorr_length hs
  have hb0 : 0 < (ehgAutocorr s).length := by omega
  have hb1 : 1 < (ehgAutocorr s).length := by omega
  have ha0 : (ehgAutocorr s)[0]? = some ((ehgAutocorr s).getD 0 0) := by
    rw [List.getElem?_eq_getElem hb0, List.getD_eq_getElem _ 0 hb0]
  by_cases hz : (ehgAutocorr s).getD 0 0 = 0
  · refine ⟨mx, mn, am, 0, hamlt2, ?_⟩
    unfold extract_ehg_features
    rw [hmx, hmn, bandSum_eq_some hfr, bandSum_eq_some hfr, bandSum_eq_some hfr, ham]
    simp only [Option.some_bind]
    rw [hdf]
    simp only [Option.some_bind]
    rw [ha0]
    simp only [Option.some_bind]
    rw [if_pos hz]
    simp only [Option.some_bind]
  · refine ⟨mx, mn, am, (ehgAutocorr s).getD 1 0 / (ehgAutocorr s).getD 0 0, hamlt2, ?_⟩
    unfold extract_ehg_features
    rw [hmx, hmn, bandSum_eq_some hfr, bandSum_eq_some hfr, bandSum_eq_some hfr, ham]
    simp only [Option.some_bind]
    rw [hdf]
    simp only [Option.some_bind]
    rw [ha0]
    simp only [Option.some_bind]
    rw [if_neg hz, List.getElem?_eq_getElem hb1, List.getD_eq_getElem _ 0 hb1]
    rfl

lemma npDiff_replicate (n : ℕ) (c : ℝ) :
    npDiff (List.replicate n c) = List.replicate (n - 1) 0 := by
  cases n with
  | zero => rfl
  | succ m =>
    simp only [Nat.add_sub_cancel]
    induction m with
    | zero => rfl
    | succ k ih =>
      have step : List.replicate (k + 2) c = c :: List.replicate (k + 1) c := rfl
      have step2 : List.replicate (k + 1) c = c :: List.replicate k c := rfl
      simp only [npDiff] at ih ⊢
      rw [step, step2, List.tail_cons]
      rw [step2] at ih
      simp only [List.tail_cons] at ih
      rw [List.zipWith_cons_cons, ih]
      norm_num
      rfl

lemma npMean_replicate_zero (k : ℕ) : npMean (List.replicate k (0 : ℝ)) = 0 := by
  simp [npMean, List.sum_replicate]

lemma ctgShortTermVar_replicate (n : ℕ) (c : ℝ) :
    ctgShortTermVar (List.replicate n c) = 0 := by
  unfold ctgShortTermVar
  by_cases h : 1 < (List.replicate n c).length
  · rw [if_pos h, npDiff_replicate, List.map_replicate, abs_zero, npMean_replicate_zero]
  · rw [if_neg h]

lemma pySlice_replicate (n a b : ℕ) (c : ℝ) :
    pySlice (List.replicate n c) a b = List.replicate (min b n - a) c := by
  rw [pySlice, List.take_replicate, List.drop_replicate]

lemma ctgLongTermVar_replicate (n : ℕ) (c : ℝ) :
    ctgLongTermVar (List.replicate n c) = 0 := by
  unfold ctgLongTermVar
  simp only [List.length_replicate]
  by_cases h : 1 < min 60 (n / 10)
  · rw [if_pos h]
    have hroll : (List.range (n - min 60 (n / 10))).map
        (fun i => npStd (pySlice (List.replicate n c) i (i + min 60 (n / 10)))) =
        List.replicate (n - min 60 (n / 10)) 0 := by
      rw [List.eq_replicate_iff]
      refine ⟨by simp, ?_⟩
      intro b hb
      simp only [List.mem_map] at hb
      obtain ⟨i, _, rfl⟩ := hb
      rw [pySlice_replicate, npStd_replicate]
    rw [hroll]
    by_cases hnil : (List.replicate (n - min 60 (n / 10)) (0 : ℝ)) = []
    · rw [if_pos hnil]
    · rw [if_neg hnil, npMean_replicate_zero]
  · rw [if_neg h]

lemma detect_accelerations_foldl_const {α : Type} [LinearOrder α] [Add α]
    {b t : α} : ∀ (s : List α) (c0 : ℕ), (∀ v ∈ s, ¬(b + t < v)) →
    (s.foldl (fun (st : ℕ × Bool) val =>
      if b + t < val then (if st.2 then st else (st.1 + 1, true))
      else (st.1, false)) (c0, false)) = (c0, false) := by
  intro s
  induction s with
  | nil => intro c0 _; rfl
  | cons v rest ih =>
    intro c0 hall
    have hv : ¬(b + t < v) := hall v (List.mem_cons_self v rest)
    simp only [List.foldl_cons, if_neg hv]
    exact ih c0 fun w hw => hall w (List.mem_cons_of_mem v hw)

lemma detect_accelerations_of_no_excursion {α : Type} [LinearOrder α] [Add α]
    {s : List α} {b t : α} (h : ∀ v ∈ s, ¬(b + t < v)) :
    detect_accelerations s b t = 0 := by
  unfold detect_accelerations
  rw [detect_accelerations_foldl_const s 0 h]

lemma detect_decelerations_foldl_const {α : Type} [LinearOrder α] [Sub α]
    {b t : α} : ∀ (s : List α) (c0 : ℕ), (∀ v ∈ s, ¬(v < b - t)) →
    (s.foldl (fun (st : ℕ × Bool) val =>
      if val < b - t then (if st.2 then st else (st.1 + 1, true))
      else (st.1, false)) (c0, false)) = (c0, false) := by
  intro s
  induction s with
  | nil => intro c0 _; rfl
  | cons v rest ih =>
    intro c0 hall
    have hv : ¬(v < b - t) := hall v (List.mem_cons_self v rest)
    simp only [List.foldl_cons, if_neg hv]
    exact ih c0 fun w hw => hall w (List.mem_cons_of_mem v hw)

lemma detect_decelerations_of_no_excursion {α : Type} [LinearOrder α] [Sub α]
    {s : List α} {b t : α} (h : ∀ v ∈ s, ¬(v < b - t)) :
    detect_decelerations s b t = 0 := by
  unfold detect_decelerations
  rw [detect_decelerations_foldl_const s 0 h]

lemma sorted_replicate_getD {n : ℕ} {c : ℝ} {i : ℕ} (h : i < n) :
    ((List.replicate n c).mergeSort (· ≤ ·)).getD i 0 = c := by
  have hlen : ((List.replicate n c).mergeSort (· ≤ ·)).length = n := by
    rw [List.length_mergeSort, List.length_replicate]
  have hi : i < ((List.replicate n c).mergeSort (· ≤ ·)).length := by omega
  rw [List.getD_eq_getElem _ 0 hi]
  have hmem := List.getElem_mem hi
  rw [List.mem_mergeSort] at hmem
  exact List.eq_of_mem_replicate hmem

lemma npMedian_replicate {n : ℕ} {c : ℝ} (h : n ≠ 0) :
    npMedian (List.replicate n c) = c := by
  unfold npMedian
  simp only [List.length_replicate]
  by_cases hp : n % 2 = 1
  · rw [if_pos hp, sorted_replicate_getD (by omega)]
  · rw [if_neg hp, sorted_replicate_getD (by omega), sorted_replicate_getD (by omega)]
    ring

/-- C10: for every signal of length strictly less than 10,
calculate_sample_entropy returns exactly 0.0, for any m and r (the guard
N < 10 fires before any other computation). -/
theorem c10_sample_entropy_short_signal (s : List ℝ) (m : ℕ) (r : ℝ)
    (h : s.length < 10) : calculate_sample_entropy s m r = 0 := by
  unfold calculate_sample_entropy
  rw [if_pos h]

theorem c10_sample_entropy_short_signal_witness :
    ([1, 2, 3] : List ℝ).length < 10 ∧ calculate_sample_entropy [1, 2, 3] 2 (1 / 5) = 0 :=
  ⟨by simp, c10_sample_entropy_short_signal [1, 2, 3] 2 (1 / 5) (by simp)⟩

/-- C9: for every nonzero-length signal with zero standard deviation, the
normalize step of preprocess_signal leaves every sample unchanged.  In this
real-valued embedding no NaN or Inf exists to be introduced; unchangedness is
exact equality of the sample list. -/
theorem c9_normalize_zero_variance (s : List ℝ) (_hne : s ≠ []) (hstd : npStd s = 0) :
    normalizeStep s = s := by
  unfold normalizeStep
  rw [hstd]
  simp

theorem c9_normalize_zero_variance_witness :
    (([2, 2] : List ℝ) ≠ []) ∧ npStd [2, 2] = 0 ∧ normalizeStep [2, 2] = [2, 2] := by
  have hvar : npVar ([2, 2] : List ℝ) = 0 := by
    norm_num [npVar, npMean]
  have hstd : npStd ([2, 2] : List ℝ) = 0 := by
    rw [npStd, hvar, Real.sqrt_zero]
  exact ⟨by simp, hstd, c9_normalize_zero_variance [2, 2] (by simp) hstd⟩

/-- C5: calculate_sample_entropy is a total function (the embedding of the
try/except wrapper): on every input it either returns 0 — covering the short
signal, the NaN-producing constant signal, the exception-producing m = 0,
and the nonpositive-phi guard — or both phi counts are strictly positive and
the result is -ln(phi(m+1) / phi(m)). -/
theorem c5_sample_entropy_never_throws (s : List ℝ) (m : ℕ) (r : ℝ) :
    calculate_sample_entropy s m r = 0 ∨
    (0 < sampEnPhi (zscore s) (r * npStd (zscore s)) m ∧
     0 < sampEnPhi (zscore s) (r * npStd (zscore s)) (m + 1) ∧
     calculate_sample_entropy s m r =
       -Real.log ((sampEnPhi (zscore s) (r * npStd (zscore s)) (m + 1) : ℝ) /
                  (sampEnPhi (zscore s) (r * npStd (zscore s)) m : ℝ))) := by
  unfold calculate_sample_entropy
  split_ifs with h1 h2 h3
  · exact Or.inl rfl
  · exact Or.inl rfl
  · exact Or.inl rfl
  · show (if 0 < sampEnPhi (zscore s) (r * npStd (zscore s)) m ∧
        0 < sampEnPhi (zscore s) (r * npStd (zscore s)) (m + 1) then
        -Real.log ((sampEnPhi (zscore s) (r * npStd (zscore s)) (m + 1) : ℝ) /
                   (sampEnPhi (zscore s) (r * npStd (zscore s)) m : ℝ))
      else 0) = 0 ∨ _
    by_cases h4 : 0 < sampEnPhi (zscore s) (r * npStd (zscore s)) m ∧
        0 < sampEnPhi (zscore s) (r * npStd (zscore s)) (m + 1)
    · rw [if_pos h4]
      exact Or.inr ⟨h4.1, h4.2, rfl⟩
    · rw [if_neg h4]
      exact Or.inl rfl

/-- C8 counterexample: preprocess_signal with target equal to the cleansed
length is NOT the identity on the signal: the normalize stage still z-scores
it.  On the signal [0, 1] with target 2 the result is [-1, 1], not [0, 1]. -/
theorem c8_counterexample :
    preprocess_signal [some 0, some 1] (some 2) = [-1, 1] ∧
    preprocess_signal [some 0, some 1] (some 2) ≠ ([0, 1] : List ℝ) := by
  have hc : cleanse [some 0, some 1] = ([0, 1] : List ℝ) := by
    simp [cleanse]
  have hmean : npMean ([0, 1] : List ℝ) = 1 / 2 := by
    norm_num [npMean]
  have hvar : npVar ([0, 1] : List ℝ) = 1 / 4 := by
    norm_num [npVar, npMean]
  have hstd : npStd ([0, 1] : List ℝ) = 1 / 2 := by
    rw [npStd, hvar, show (1 / 4 : ℝ) = (1 / 2) ^ 2 by norm_num,
        Real.sqrt_sq (by norm_num)]
  have hns : normalizeStep ([0, 1] : List ℝ) = [-1, 1] := by
    unfold normalizeStep
    rw [hstd, if_pos (by norm_num : (0 : ℝ) < 1 / 2), hmean]
    simp only [List.map_cons, List.map_nil]
    norm_num
  have hmain : preprocess_signal [some 0, some 1] (some 2) = [-1, 1] := by
    unfold preprocess_signal
    rw [hc, hns]
    norm_num
  refine ⟨hmain, ?_⟩
  rw [hmain]
  intro hcontra
  norm_num at hcontra

/-- C8 amended: when the target length equals the cleansed length, the
resample stage is skipped, so preprocess_signal returns exactly the
normalized cleansed signal (not the input itself). -/
theorem c8_amended_resample_skipped (s : List (Option ℝ)) :
    preprocess_signal s (some (cleanse s).length) = normalizeStep (cleanse s) := by
  simp only [preprocess_signal]
  rw [if_neg (by simp [normalizeStep_length])]

/-- C2 counterexample: with segment_length = 1 and overlap = 0.5 the step is
int(1 * 0.5) = 0 — it is NOT clamped up to 1 as the claim states — and
python range(0, stop, 0) raises ValueError, modelled by none. -/
theorem c2_counterexample : segment_signal ([0] : List ℚ) 1 (1 / 2) = none := by
  unfold segment_signal
  norm_num [pyInt]

/-- C2 amended: whenever the truncated step int(L * (1 - overlap)) is at
least 1 (no clamping exists in the code; a zero step raises), segment_signal
returns exactly the windows s[k*step : k*step + L] for k = 0, 1, ..., each of
exactly L samples — consecutive start indices differ by the step, and the
final partial window is dropped. -/
theorem c2_amended_segmentation (α : Type) (s : List α) (L : ℕ) (ov : ℚ)
    (hstep : 1 ≤ pyInt ((L : ℚ) * (1 - ov))) :
    ∃ segs, segment_signal s L ov = some segs ∧
      (∀ seg ∈ segs, seg.length = L) ∧
      (∀ k, k < segs.length →
        segs.getD k [] = pySlice s (k * (pyInt ((L : ℚ) * (1 - ov))).toNat)
          (k * (pyInt ((L : ℚ) * (1 - ov))).toNat + L)) := by
  have h0 : ¬(pyInt ((L : ℚ) * (1 - ov)) = 0) := by omega
  have hneg : ¬(pyInt ((L : ℚ) * (1 - ov)) < 0) := by omega
  refine ⟨(List.range (((((s.length : ℤ) - L + 1)).toNat +
      (pyInt ((L : ℚ) * (1 - ov))).toNat - 1) /
      (pyInt ((L : ℚ) * (1 - ov))).toNat)).map fun k =>
        pySlice s (k * (pyInt ((L : ℚ) * (1 - ov))).toNat)
          (k * (pyInt ((L : ℚ) * (1 - ov))).toNat + L), ?_, ?_, ?_⟩
  · simp only [segment_signal]
    rw [if_neg h0, if_neg hneg]
  · intro seg hseg
    simp only [List.mem_map, List.mem_range] at hseg
    obtain ⟨k, hk, rfl⟩ := hseg
    rw [pySlice_length]
    have hstep1 : 1 ≤ (pyInt ((L : ℚ) * (1 - ov))).toNat := by omega
    set step := (pyInt ((L : ℚ) * (1 - ov))).toNat with hstepdef
    set stop := (((s.length : ℤ) - L + 1)).toNat with hstopdef
    have hk2 : (k + 1) * step ≤ stop + step - 1 := by
      calc (k + 1) * step ≤ ((stop + step - 1) / step) * step :=
            Nat.mul_le_mul_right step hk
      _ ≤ stop + step - 1 := Nat.div_mul_le_self _ _
    have hks : k * step + step ≤ stop + step - 1 := by
      rw [Nat.add_mul, one_mul] at hk2
      exact hk2
    have hfit : k * step + L ≤ s.length := by omega
    omega
  · intro k hk
    simp only [List.length_map, List.length_range] at hk
    have hk2 : k < ((List.range
        (((((s.length : ℤ) - L + 1)).toNat + (pyInt ((L : ℚ) * (1 - ov))).toNat - 1) /
          (pyInt ((L : ℚ) * (1 - ov))).toNat)).map fun k =>
            pySlice s (k * (pyInt ((L : ℚ) * (1 - ov))).toNat)
              (k * (pyInt ((L : ℚ) * (1 - ov))).toNat + L)).length := by
      simp only [List.length_map, List.length_range]
      exact hk
    rw [List.getD_eq_getElem _ [] hk2, List.getElem_map, List.getElem_range]

theorem c2_witness :
    ∃ segs, segment_signal ([1, 2, 3] : List ℚ) 2 (1 / 2) = some segs ∧
      (∀ seg ∈ segs, seg.length = 2) ∧
      (∀ k, k < segs.length →
        segs.getD k [] = pySlice ([1, 2, 3] : List ℚ)
          (k * (pyInt (((2 : ℕ) : ℚ) * (1 - 1 / 2))).toNat)
          (k * (pyInt (((2 : ℕ) : ℚ) * (1 - 1 / 2))).toNat + 2)) :=
  c2_amended_segmentation ℚ [1, 2, 3] 2 (1 / 2) (by norm_num [pyInt])

lemma runStartCount_eq_countP (bs : List Bool) : ∀ (prev : Bool),
    runStartCount prev bs =
      (List.range bs.length).countP fun i =>
        bs.getD i false && !((prev :: bs).getD i false) := by
  induction bs with
  | nil => intro prev; rfl
  | cons b rest ih =>
    intro prev
    simp only [runStartCount, List.length_cons, List.range_succ_eq_map, List.countP_cons,
      List.countP_map]
    have hcomp : ((fun i => (b :: rest).getD i false && !((prev :: b :: rest).getD i false)) ∘
        Nat.succ) = fun i => rest.getD i false && !((b :: rest).getD i false) := by
      funext i
      simp [List.getD_cons_succ]
    rw [ih b, hcomp]
    simp [List.getD]
    cases b <;> cases prev <;> simp <;> omega

lemma detect_foldl_runStartCount {α : Type} [LinearOrder α] [Add α] (b t : α) :
    ∀ (s : List α) (c : ℕ) (prev : Bool),
      (s.foldl (fun (st : ℕ × Bool) val =>
        if b + t < val then (if st.2 then st else (st.1 + 1, true))
        else (st.1, false)) (c, prev)).1 =
      c + runStartCount prev (s.map fun v => decide (b + t < v)) := by
  intro s
  induction s with
  | nil => intro c prev; simp [runStartCount]
  | cons v rest ih =>
    intro c prev
    by_cases hv : b + t < v
    · cases prev with
      | false =>
        simp [List.foldl_cons, runStartCount, hv, ih]
        omega
      | true =>
        simp [List.foldl_cons, runStartCount, hv, ih]
    · cases prev with
      | false =>
        simp [List.foldl_cons, runStartCount, hv, ih]
      | true =>
        simp [List.foldl_cons, runStartCount, hv, ih]

/-- C6: detect_accelerations counts exactly one acceleration per contiguous
excursion above baseline + threshold — it equals the number of positions
that are above the level while their predecessor is not, for every signal,
baseline and threshold — and on the synthetic trace with two 3-sample
excursions above baseline 140 + 15 it returns exactly 2. -/
theorem c6_accelerations_per_excursion :
    (∀ (α : Type) [LinearOrder α] [Add α] (s : List α) (b t : α),
        detect_accelerations s b t = excursionStarts s b t) ∧
    detect_accelerations c6sig 140 15 = 2 := by
  constructor
  · intro α inst1 inst2 s b t
    simp only [detect_accelerations, excursionStarts]
    rw [detect_foldl_runStartCount b t s 0 false, runStartCount_eq_countP]
    rw [List.length_map]
    omega
  · norm_num [detect_accelerations, c6sig]

lemma extract_ehg_eq_none_of_short {fm : List ℝ → List ℝ} {s : List ℝ}
    (h1 : s ≠ []) (h3 : s.length ≤ 3) : extract_ehg_features fm s = none := by
  obtain ⟨mx, hmx⟩ := listMax_of_ne_nil h1
  obtain ⟨mn, hmn⟩ := listMin_of_ne_nil h1
  unfold extract_ehg_features
  rw [hmx, hmn]
  simp only [Option.some_bind]
  by_cases hfr : (fm s).length = (fftfreq s.length).length
  · rw [bandSum_eq_some hfr, bandSum_eq_some hfr, bandSum_eq_some hfr]
    simp only [Option.some_bind]
    have hslice : pySlice (fm s) 1 ((fm s).length / 2) = [] := by
      rw [← List.length_eq_zero, pySlice_length]
      rw [fftfreq_length] at hfr
      omega
    rw [hslice]
    rfl
  · rw [bandSum_eq_none hfr]
    rfl

/-- C1 (amended): with any length-preserving magnitude spectrum,
extract_ctg_features returns a vector of exactly 14 values for every
nonzero-length signal, and extract_ehg_features returns a vector of exactly
16 values for every signal of length at least 4 — but for signals of length
1 to 3 extract_ehg_features raises (np.argmax receives the empty slice
fft_vals[1 : len(fft_vals)//2]), so it does not return a vector at all. -/
theorem c1_feature_vector_lengths :
    (∀ (fm : List ℝ → List ℝ) (s : List ℝ), (∀ x, (fm x).length = x.length) →
      s ≠ [] → ∃ v, extract_ctg_features fm s = some v ∧ v.length = 14) ∧
    (∀ (fm : List ℝ → List ℝ) (s : List ℝ), (∀ x, (fm x).length = x.length) →
      4 ≤ s.length → ∃ v, extract_ehg_features fm s = some v ∧ v.length = 16) ∧
    (∀ (fm : List ℝ → List ℝ) (s : List ℝ), s ≠ [] → s.length ≤ 3 →
      extract_ehg_features fm s = none) := by
  refine ⟨?_, ?_, ?_⟩
  · intro fm s hlen hs
    have hfm : fm s ≠ [] := by
      rw [← List.length_pos, hlen s, List.length_pos]
      exact hs
    obtain ⟨mx, mn, mfft, heq⟩ := extract_ctg_eq_some hs hfm
    exact ⟨_, heq, rfl⟩
  · intro fm s hlen h4
    obtain ⟨mx, mn, am, lag1, hlt, heq⟩ := extract_ehg_eq_some (hlen s) h4
    exact ⟨_, heq, rfl⟩
  · intro fm s hs h3
    exact extract_ehg_eq_none_of_short hs h3

theorem c1_witness :
    (∃ v, extract_ctg_features fmAbs [1] = some v ∧ v.length = 14) ∧
    (∃ v, extract_ehg_features fmAbs [1, 2, 3, 4] = some v ∧ v.length = 16) :=
  ⟨c1_feature_vector_lengths.1 fmAbs [1] (fun x => by simp [fmAbs]) (by simp),
   c1_feature_vector_lengths.2.1 fmAbs [1, 2, 3, 4] (fun x => by simp [fmAbs]) (by simp)⟩

/-- C1 counterexample: on the length-1 signal [1] (where the pointwise
absolute value IS the exact one-point DFT magnitude spectrum),
extract_ehg_features raises — np.argmax is applied to the empty slice — so
it does not return a 16-vector, contradicting the claim that no
nonzero-length input throws. -/
theorem c1_counterexample : extract_ehg_features fmAbs [1] = none :=
  extract_ehg_eq_none_of_short (by simp) (by simp)

/-- C3: every feature vector extract_ehg_features produces has 0 at
positions 9 and 10 (the 10th and 11th values, the [0.5, 1.0) and [1.0, 4.0)
band sums): np.fft.fftfreq yields normalized frequencies below 1/2, so both
band masks select nothing. -/
theorem c3_mid_high_bands_zero (fm : List ℝ → List ℝ) (s : List ℝ)
    (hlen : ∀ x, (fm x).length = x.length) (h4 : 4 ≤ s.length) :
    ∃ v, extract_ehg_features fm s = some v ∧ v.length = 16 ∧
      v.getD 9 0 = 0 ∧ v.getD 10 0 = 0 := by
  obtain ⟨mx, mn, am, lag1, hlt, heq⟩ := extract_ehg_eq_some (hlen s) h4
  refine ⟨_, heq, rfl, ?_, ?_⟩
  · simp only [List.getD_cons_succ, List.getD_cons_zero]
    exact bandSumVal_eq_zero_of_half_le (by norm_num)
  · simp only [List.getD_cons_succ, List.getD_cons_zero]
    exact bandSumVal_eq_zero_of_half_le (by norm_num)

theorem c3_witness :
    ∃ v, extract_ehg_features fmAbs [1, 2, 3, 5] = some v ∧ v.length = 16 ∧
      v.getD 9 0 = 0 ∧ v.getD 10 0 = 0 :=
  c3_mid_high_bands_zero fmAbs [1, 2, 3, 5] (fun x => by simp [fmAbs]) (by simp)

/-- C7: the 500-sample constant signal at 140 through the CTG extractor:
baseline (4th value) is 140, short- and long-term variability (5th, 6th)
are 0, acceleration and deceleration counts (7th, 8th) are 0, and the
fraction of samples strictly above baseline (12th value) is 0. -/
theorem c7_ctg_constant_signal (fm : List ℝ → List ℝ)
    (hlen : ∀ x, (fm x).length = x.length) :
    ∃ v, extract_ctg_features fm ctgConstSig = some v ∧ v.length = 14 ∧
      v.getD 3 0 = 140 ∧ v.getD 4 0 = 0 ∧ v.getD 5 0 = 0 ∧
      v.getD 6 0 = 0 ∧ v.getD 7 0 = 0 ∧ v.getD 11 0 = 0 := by
  have hs : ctgConstSig ≠ [] := by
    rw [ctgConstSig, ← List.length_pos, List.length_replicate]
    norm_num
  have hfm : fm ctgConstSig ≠ [] := by
    rw [← List.length_pos, hlen, ctgConstSig, List.length_replicate]
    norm_num
  obtain ⟨mx, mn, mfft, heq⟩ := extract_ctg_eq_some hs hfm
  have hbase : calculate_baseline_fhr ctgConstSig = 140 := by
    rw [ctgConstSig, calculate_baseline_fhr, npMedian_replicate (by norm_num)]
  have hacc : detect_accelerations ctgConstSig (calculate_baseline_fhr ctgConstSig)
      (15 : ℝ) = 0 := by
    rw [hbase]
    refine detect_accelerations_of_no_excursion fun v hv => ?_
    rw [ctgConstSig] at hv
    rw [List.eq_of_mem_replicate hv]
    norm_num
  have hdec : detect_decelerations ctgConstSig (calculate_baseline_fhr ctgConstSig)
      (15 : ℝ) = 0 := by
    rw [hbase]
    refine detect_decelerations_of_no_excursion fun v hv => ?_
    rw [ctgConstSig] at hv
    rw [List.eq_of_mem_replicate hv]
    norm_num
  have hcount : ctgConstSig.countP
      (fun v => decide (calculate_baseline_fhr ctgConstSig < v)) = 0 := by
    rw [hbase]
    refine List.countP_eq_zero.2 fun v hv => ?_
    rw [ctgConstSig] at hv
    rw [List.eq_of_mem_replicate hv]
    norm_num
  refine ⟨_, heq, rfl, ?_, ?_, ?_, ?_, ?_, ?_⟩
  · simpa only [List.getD_cons_succ, List.getD_cons_zero] using hbase
  · simp only [List.getD_cons_succ, List.getD_cons_zero]
    rw [ctgConstSig, ctgShortTermVar_replicate]
  · simp only [List.getD_cons_succ, List.getD_cons_zero]
    rw [ctgConstSig, ctgLongTermVar_replicate]
  · simp only [List.getD_cons_succ, List.getD_cons_zero]
    rw [hacc]
    norm_num
  · simp only [List.getD_cons_succ, List.getD_cons_zero]
    rw [hdec]
    norm_num
  · simp only [List.getD_cons_succ, List.getD_cons_zero]
    rw [hcount]
    norm_num

theorem c7_witness :
    ∃ v, extract_ctg_features fmZero ctgConstSig = some v ∧ v.length = 14 ∧
      v.getD 3 0 = 140 ∧ v.getD 4 0 = 0 ∧ v.getD 5 0 = 0 ∧
      v.getD 6 0 = 0 ∧ v.getD 7 0 = 0 ∧ v.getD 11 0 = 0 :=
  c7_ctg_constant_signal fmZero (fun x => by simp [fmZero])

lemma ctgLongTermVar_eq_ltvAmended (s : List ℝ) : ctgLongTermVar s = ltvAmended s := by
  simp only [ctgLongTermVar, ltvAmended]
  by_cases h1 : 1 < min 60 (s.length / 10)
  · rw [if_pos h1]
    by_cases h2 : List.range (s.length - min 60 (s.length / 10)) = ([] : List ℕ)
    · rw [if_pos (by rw [h2]; rfl), if_pos (Or.inr h2)]
    · rw [if_neg (by simp only [ne_eq, List.map_eq_nil_iff]; exact h2),
          if_neg (by push_neg; exact ⟨by omega, h2⟩)]
  · rw [if_neg h1, if_pos (Or.inl (by omega))]

/-- C4 (amended): the 6th CTG value is the mean of the rolling standard
deviations over the windows starting at 0 .. len - ws - 1, where
ws = min(60, len // 10) — the full window starting at len - ws is left out
by the source loop range(len - window_size) — and it is 0 when ws ≤ 1 or no
such window start exists. -/
theorem c4_amended_long_term_variability (fm : List ℝ → List ℝ) (s : List ℝ)
    (hlen : ∀ x, (fm x).length = x.length) (hs : s ≠ []) :
    ∃ v, extract_ctg_features fm s = some v ∧ v.length = 14 ∧
      v.getD 5 0 = ltvAmended s ∧
      (min 60 (s.length / 10) ≤ 1 → v.getD 5 0 = 0) := by
  have hfm : fm s ≠ [] := by
    rw [← List.length_pos, hlen s, List.length_pos]
    exact hs
  obtain ⟨mx, mn, mfft, heq⟩ := extract_ctg_eq_some hs hfm
  refine ⟨_, heq, rfl, ?_, ?_⟩
  · simp only [List.getD_cons_succ, List.getD_cons_zero]
    exact ctgLongTermVar_eq_ltvAmended s
  · intro hws
    simp only [List.getD_cons_succ, List.getD_cons_zero]
    simp only [ctgLongTermVar]
    rw [if_neg (by omega)]

theorem c4_witness :
    ∃ v, extract_ctg_features fmZero c4sig = some v ∧ v.length = 14 ∧
      v.getD 5 0 = ltvAmended c4sig ∧
      (min 60 (c4sig.length / 10) ≤ 1 → v.getD 5 0 = 0) :=
  c4_amended_long_term_variability fmZero c4sig (fun x => by simp [fmZero])
    (by rw [c4sig]; simp)

lemma c4sig_length : c4sig.length = 20 := by
  rw [c4sig, List.length_append, List.length_replicate]
  rfl

lemma c4sig_slice_small {i : ℕ} (hi : i < 18) :
    pySlice c4sig i (i + 2) = List.replicate 2 0 := by
  rw [c4sig, pySlice, List.take_append_of_le_length (by rw [List.length_replicate]; omega),
      List.take_replicate, List.drop_replicate]
  congr 1
  omega

lemma c4sig_rolling18 :
    (List.range 18).map (fun i => npStd (pySlice c4sig i (i + 2))) =
      List.replicate 18 0 := by
  rw [List.eq_replicate_iff]
  refine ⟨by simp, ?_⟩
  intro b hb
  simp only [List.mem_map, List.mem_range] at hb
  obtain ⟨i, hi, rfl⟩ := hb
  rw [c4sig_slice_small hi, npStd_replicate]

lemma c4sig_slice_last : pySlice c4sig 18 20 = [0, 1] := by
  rw [pySlice, List.take_of_length_le (by rw [c4sig_length])]
  rw [c4sig, List.drop_append_of_le_length (by rw [List.length_replicate]; omega),
      List.drop_replicate]
  rfl

lemma npStd_last_window : npStd ([0, 1] : List ℝ) = 1 / 2 := by
  have hvar : npVar ([0, 1] : List ℝ) = 1 / 4 := by
    norm_num [npVar, npMean]
  rw [npStd, hvar, show (1 / 4 : ℝ) = (1 / 2) ^ 2 by norm_num,
      Real.sqrt_sq (by norm_num)]

/-- C4 counterexample: on the 20-sample signal of nineteen zeros followed by
a one, the source long-term variability is 0 (its rolling loop never reaches
the window [0, 1] starting at index 18), while the mean over ALL full
windows — what the claim states — is (1/2) / 19 = 1/38.  The 6th CTG value
therefore does not equal the all-full-windows mean. -/
theorem c4_counterexample :
    ctgLongTermVar c4sig = 0 ∧ ltvAllFullWindows c4sig = 1 / 38 ∧
    ctgLongTermVar c4sig ≠ ltvAllFullWindows c4sig := by
  have hws : min 60 (20 / 10 : ℕ) = 2 := by decide
  have h1 : ctgLongTermVar c4sig = 0 := by
    simp only [ctgLongTermVar, c4sig_length]
    rw [hws]
    rw [if_pos (by norm_num : (1 : ℕ) < 2)]
    rw [show (20 - 2 : ℕ) = 18 from rfl, c4sig_rolling18]
    rw [if_neg (by simp)]
    exact npMean_replicate_zero 18
  have h2 : ltvAllFullWindows c4sig = 1 / 38 := by
    simp only [ltvAllFullWindows, c4sig_length]
    rw [hws]
    rw [if_pos (by norm_num : (1 : ℕ) < 2)]
    rw [show (20 - 2 + 1 : ℕ) = 19 from rfl, List.range_succ, List.map_append,
        c4sig_rolling18]
    rw [if_neg (by simp)]
    simp only [List.map_cons, List.map_nil, c4sig_slice_last, npStd_last_window]
    rw [npMean, List.sum_append, List.sum_replicate, List.length_append,
        List.length_replicate]
    norm_num
    rw [c4sig_slice_last, npStd_last_window]
    norm_num
  exact ⟨h1, h2, by rw [h1, h2]; norm_num⟩
